import Mathlib

/-!
Verification of the chunking / indexing / retrieval pipeline of the
Industrial-Docs-RAG-Chatbot repository.

The Python modules `src/ingest.py`, `scripts/build_index.py`,
`src/retriever.py` and `src/api/app.py` are embedded shallowly:

* Python strings are modelled as `List Char` (a Python `str` is a sequence
  of code points, so lengths, indices and slices agree exactly);
* Python `int` is `Int` (or `Nat` where the source value is provably
  non-negative);
* IEEE-754 `float` similarity scores are modelled by `Int`: the claims
  under study concern only the ordering of scores, never float
  arithmetic, so any linear order is a faithful carrier;
* fallible operations return `Option` / `Except`;
* the FAISS index, the sentence-transformers encoder, the filesystem and
  the environment are external collaborators and enter the model as
  explicit function-valued parameters / state fields.
-/

/-! ## Python string primitives (on `List Char`) -/

/-- Whitespace set of Python `str.strip()` restricted to ASCII:
space, tab, newline, carriage return, vertical tab, form feed. -/
def isPySpace (c : Char) : Bool :=
  c = ' ' || c = '\t' || c = '\n' || c = '\r' || c = '\x0b' || c = '\x0c'

/-- Python `s.strip()`: remove leading and trailing whitespace. -/
def pyStrip (s : List Char) : List Char :=
  ((s.dropWhile isPySpace).reverse.dropWhile isPySpace).reverse

/-- Python `text.replace("\r\n", "\n")`: leftmost, non-overlapping
replacement of the two-character sequence CR LF by LF. -/
def replaceCRLF : List Char → List Char
  | [] => []
  | '\r' :: '\n' :: rest => '\n' :: replaceCRLF rest
  | c :: rest => c :: replaceCRLF rest

/-- Python `s.split("\n\n")`: leftmost, non-overlapping split on a blank
line.  Like Python's `str.split` with an explicit separator it returns
`[""]` on the empty string and keeps empty parts. -/
def splitOnNN : List Char → List (List Char)
  | [] => [[]]
  | '\n' :: '\n' :: rest => [] :: splitOnNN rest
  | c :: rest =>
    match splitOnNN rest with
    | [] => [[c]]
    | h :: t => (c :: h) :: t

/-- Python `"\n\n".join(parts)`. -/
def joinNN : List (List Char) → List Char
  | [] => []
  | [p] => p
  | p :: q :: rest => p ++ '\n' :: '\n' :: joinNN (q :: rest)

/-- Python `s[a:b]` for non-negative bounds (out-of-range bounds clamp). -/
def sliceList (s : List Char) (a b : Nat) : List Char :=
  (s.take b).drop a

/-- Python `s[-n:]` for `0 < n ≤ len(s)`: the trailing `n` characters. -/
def lastN (n : Nat) (s : List Char) : List Char :=
  s.drop (s.length - n)

/-! ## Paragraph-packing chunker — `src/ingest.py`, `split_into_chunks` -/

/-- Loop state of `split_into_chunks`: the flushed chunks, the list of
paragraphs of the chunk being built, and the running `current_len`. -/
structure PackState where
  chunks : List (List Char)
  current : List (List Char)
  currentLen : Nat
deriving DecidableEq, Repr

/-- One iteration of the `for p in paragraphs` loop of
`split_into_chunks` (src/ingest.py lines 122-140): if the accumulated
chunk would overflow `max_chars`, flush it and, when `overlap_chars > 0`
and the flushed text is strictly longer than `overlap_chars`, seed the
next chunk with its trailing `overlap_chars` characters; then append the
paragraph and add `len(p) + 2` to the running length. -/
def packStep (maxChars overlapChars : Nat) (st : PackState) (p : List Char) :
    PackState :=
  let pLen := p.length + 2
  if st.current ≠ [] ∧ st.currentLen + pLen > maxChars then
    let chunkText := joinNN st.current
    if overlapChars > 0 ∧ chunkText.length > overlapChars then
      let ov := lastN overlapChars chunkText
      { chunks := st.chunks ++ [chunkText],
        current := [ov, p],
        currentLen := ov.length + pLen }
    else
      { chunks := st.chunks ++ [chunkText],
        current := [p],
        currentLen := pLen }
  else
    { chunks := st.chunks,
      current := st.current ++ [p],
      currentLen := st.currentLen + pLen }

/-- The paragraph list computed by `split_into_chunks`
(src/ingest.py lines 115-116): normalize CRLF, split on blank lines,
strip every paragraph, drop the empty ones. -/
def paragraphsOf (text : List Char) : List (List Char) :=
  ((splitOnNN (replaceCRLF text)).map pyStrip).filter (fun p => p ≠ [])

/-- `split_into_chunks(text, max_chars, overlap_chars)` from
src/ingest.py lines 99-145 (defaults in the source: 1000 and 200).
The final non-empty `current` buffer is flushed after the loop. -/
def split_into_chunks (text : List Char) (maxChars overlapChars : Nat) :
    List (List Char) :=
  let final := (paragraphsOf text).foldl (packStep maxChars overlapChars) ⟨[], [], 0⟩
  if final.current = [] then final.chunks else final.chunks ++ [joinNN final.current]

/-! ## Character-window chunker — `scripts/build_index.py`, `simple_chunk_text` -/

/-- The `while start < n` loop of `simple_chunk_text`
(scripts/build_index.py lines 71-81), with an explicit fuel parameter:
`none` means the fuel ran out, i.e. the Python loop has not terminated
within that many iterations.  In the source `start` is a Python `int`
re-assigned as `start = end - overlap`; whenever `overlap ≤ max_chars`
that value is non-negative (`end = start + max_chars` on every
non-final iteration), so `Nat` with truncated subtraction is a faithful
carrier in the regime the claims quantify over. -/
def simpleChunkLoop (cleaned : List Char) (maxChars overlap : Nat) :
    Nat → Nat → List (List Char) → Option (List (List Char))
  | 0, _, _ => none
  | fuel + 1, start, chunks =>
    let n := cleaned.length
    if start < n then
      let e := min (start + maxChars) n
      let chunk := pyStrip (sliceList cleaned start e)
      let chunks' := if chunk ≠ [] then chunks ++ [chunk] else chunks
      if n ≤ e then some chunks'
      else simpleChunkLoop cleaned maxChars overlap fuel (e - overlap) chunks'
    else some chunks

/-- `simple_chunk_text(text, max_chars, overlap)` from
scripts/build_index.py lines 54-82 (defaults in the source: 800 and
100).  The fuel `len(cleaned) + 1` is enough iterations whenever the
loop terminates at all (each iteration advances `start` by at least one
when `overlap < max_chars`); a `none` result models divergence of the
Python `while` loop. -/
def simple_chunk_text (text : List Char) (maxChars overlap : Nat) :
    Option (List (List Char)) :=
  let cleaned := replaceCRLF text
  simpleChunkLoop cleaned maxChars overlap (cleaned.length + 1) 0 []

/-! ## Retriever — `src/retriever.py` -/

/-- One metadata row as used by `VectorRetriever.search`
(src/retriever.py lines 230-231): `doc_id = str(meta["doc_id"])`,
`chunk_id = int(meta["chunk_id"])`. -/
structure MetaRecord where
  doc_id : String
  chunk_id : Int
deriving DecidableEq, Repr

/-- `RetrievedChunk` dataclass (src/retriever.py lines 44-59); the float
`score` is carried by `Int` (see the header note on floats). -/
structure RetrievedChunk where
  doc_id : String
  chunk_id : Int
  score : Int
  text : Option String
deriving DecidableEq, Repr

/-- The state a constructed `VectorRetriever` closes over.  The external
collaborators are function fields:

* `indexSearch q k` — the pairs `zip(scores[0], indices[0])` produced by
  `self.index.search(self.encode_query(q), k)`; FAISS signals absent
  slots with negative row ids;
* `rowidToMeta` — the `self._rowid_to_meta` lookup built by
  `_build_rowid_to_meta` (dictionary `row_id → record`);
* `chunkText d c` — the result of `self._load_chunk_text(d, c)`
  (`none` models Python `None`);
* `ntotal` — `self.index.ntotal`; `defaultTopK` — `self.default_top_k`. -/
structure RetrieverState where
  ntotal : Nat
  indexSearch : String → Int → List (Int × Int)
  rowidToMeta : Int → Option MetaRecord
  chunkText : String → Int → Option String
  defaultTopK : Int

/-- Python `top_k or self.default_top_k` (src/retriever.py line 209):
`None` and the falsy value `0` both select the default. -/
def pyOrInt : Option Int → Int → Int
  | none, d => d
  | some t, d => if t = 0 then d else t

/-- Body of the `for score, row_id in zip(scores_row, idx_row)` loop
(src/retriever.py lines 222-244): negative (sentinel) row ids are
skipped, row ids absent from the metadata mapping are skipped, otherwise
a `RetrievedChunk` is built whose text is `chunkText` when `with_text`
is set and `None` otherwise. -/
def processPair (st : RetrieverState) (withText : Bool) (p : Int × Int) :
    Option RetrievedChunk :=
  if p.2 < 0 then none
  else
    match st.rowidToMeta p.2 with
    | none => none
    | some m =>
      some { doc_id := m.doc_id
             chunk_id := m.chunk_id
             score := p.1
             text := if withText then st.chunkText m.doc_id m.chunk_id else none }

/-- Comparator of the final defensive sort
(`results.sort(key=lambda r: r.score, reverse=True)`,
src/retriever.py line 247): descending score. -/
def scoreDescLe (a b : RetrievedChunk) : Bool :=
  b.score ≤ a.score

/-- `VectorRetriever.search(query, top_k, with_text)` from
src/retriever.py lines 189-248.  Python's stable `list.sort` is
modelled by the stable `List.mergeSort`. -/
def VectorRetriever.search (st : RetrieverState) (query : String)
    (topK : Option Int) (withText : Bool) : List RetrievedChunk :=
  if st.ntotal = 0 then []
  else
    let k := pyOrInt topK st.defaultTopK
    if k ≤ 0 then []
    else
      let pairs := st.indexSearch query k
      (pairs.filterMap (processPair st withText)).mergeSort scoreDescLe

/-- `VectorRetriever._load_chunk_text(doc_id, chunk_id)` from
src/retriever.py lines 252-274.  `readFile d` is the filesystem
collaborator: `some raw` is the text of `raw_data_dir / d`, and `none`
folds together "file does not exist" and "read_text_file /
split_into_chunks raised" (the `try/except` returns `None` in both
cases).  The chunker is called with the source defaults 1000 / 200. -/
def loadChunkTextModel (readFile : String → Option (List Char))
    (docId : String) (chunkId : Int) : Option (List Char) :=
  match readFile docId with
  | none => none
  | some raw =>
    let chunks := split_into_chunks raw 1000 200
    if 0 ≤ chunkId ∧ chunkId < (chunks.length : Int) then
      some (chunks.getD chunkId.toNat [])
    else
      none

/-! ## Ingestion — `src/ingest.py` -/

/-- `Chunk` dataclass (src/ingest.py lines 49-62). -/
structure Chunk where
  doc_id : String
  chunk_id : Nat
  text : List Char
deriving DecidableEq, Repr

/-- `build_chunks_for_corpus(raw_dir)` (src/ingest.py lines 148-172)
over an abstract corpus: the list of `(relative posix path, file text)`
pairs that `iter_raw_files` + `read_text_file` produce.  Each document
is chunked with the source defaults 1000 / 200 and its chunks are
numbered by `enumerate`. -/
def build_chunks_for_corpus (corpus : List (String × List Char)) : List Chunk :=
  corpus.flatMap fun d =>
    (split_into_chunks d.2 1000 200).enum.map fun ic =>
      { doc_id := d.1, chunk_id := ic.1, text := ic.2 }

/-- `embed_chunks` (src/ingest.py lines 180-207): raises `ValueError`
on an empty chunk list, otherwise encodes every chunk text.  The
embedding model is the collaborator `embed`; a vector is carried
abstractly as `List Int`. -/
def embed_chunks (embed : List Char → List Int) (chunks : List Chunk) :
    Except String (List (List Int)) :=
  if chunks = [] then .error "No chunks provided for embedding."
  else .ok (chunks.map fun c => embed c.text)

/-- The FAISS `IndexFlatIP` after `index.add(embeddings)`: it stores the
vectors in insertion order; `ntotal` is their count. -/
structure FaissIndex where
  vectors : List (List Int)
deriving DecidableEq, Repr

/-- `index.ntotal`. -/
def FaissIndex.ntotal (ix : FaissIndex) : Nat :=
  ix.vectors.length

/-- `build_faiss_index(embeddings)` (src/ingest.py lines 210-227): the
2-D-shape requirement holds by type, and the `index.ntotal != n_vectors`
consistency check holds by construction (`ntotal` is the length of the
added vector list). -/
def build_faiss_index (embeddings : List (List Int)) : FaissIndex :=
  { vectors := embeddings }

/-- One line of `metadata.jsonl` as written by
`save_index_and_metadata` (src/ingest.py lines 249-258). -/
structure MetaLine where
  row_id : Nat
  doc_id : String
  chunk_id : Nat
deriving DecidableEq, Repr

/-- The metadata lines written by `save_index_and_metadata`
(src/ingest.py lines 230-261): `for row_id, ch in enumerate(chunks)`,
one JSON object per line in that order. -/
def save_index_and_metadata (chunks : List Chunk) : List MetaLine :=
  chunks.enum.map fun rc =>
    { row_id := rc.1, doc_id := rc.2.doc_id, chunk_id := rc.2.chunk_id }

/-- The two files a successful ingestion run leaves on disk. -/
structure IngestOutputs where
  index : FaissIndex
  metadata : List MetaLine
deriving DecidableEq, Repr

/-- `run_ingestion` (src/ingest.py lines 269-307): build the corpus
chunks; if there are none, return before writing anything (`none`);
otherwise embed, build the index and persist index plus metadata.  A
`ValueError` escaping from `embed_chunks` would likewise abort before
any file is written, hence also `none`. -/
def run_ingestion (embed : List Char → List Int)
    (corpus : List (String × List Char)) : Option IngestOutputs :=
  let chunks := build_chunks_for_corpus corpus
  if chunks = [] then none
  else
    match embed_chunks embed chunks with
    | .error _ => none
    | .ok embeddings =>
      some { index := build_faiss_index embeddings
             metadata := save_index_and_metadata chunks }

/-! ## Index-building script — `scripts/build_index.py` -/

/-- A raw document as seen by `build_index_from_dir`: `stem` is
`path.stem` (the `doc_id`), `path` the full path string, `content` the
text returned by `read_document`. -/
structure RawDoc where
  stem : String
  path : String
  content : List Char
deriving DecidableEq, Repr

/-- One `docs_meta` record of `build_index_from_dir`
(scripts/build_index.py lines 119-128). -/
structure BuildMeta where
  doc_id : String
  chunk_id : Nat
  source_path : String
  text : List Char
deriving DecidableEq, Repr

/-- The document loop of `build_index_from_dir`
(scripts/build_index.py lines 112-128): chunk every document with
`simple_chunk_text` and number the chunks per document.  `none`
propagates divergence of `simple_chunk_text`. -/
def chunkDocs (maxChars overlap : Nat) :
    List RawDoc → Option (List BuildMeta)
  | [] => some []
  | d :: rest =>
    match simple_chunk_text d.content maxChars overlap with
    | none => none
    | some chunks =>
      match chunkDocs maxChars overlap rest with
      | none => none
      | some more =>
        some ((chunks.enum.map fun ic =>
          { doc_id := d.stem, chunk_id := ic.1,
            source_path := d.path, text := ic.2 : BuildMeta }) ++ more)

/-- `build_index_from_dir` (scripts/build_index.py lines 85-163) up to
the point where files are written: collect all chunks; if there are
none, raise `RuntimeError` (the `.error` value) before creating either
output file; otherwise embed the chunk texts, build the index and write
index plus metadata (the `.ok` payload).  The outer `none` again models
divergence of the chunking loop. -/
def build_index_from_dir (embed : List Char → List Int)
    (corpus : List RawDoc) (maxChars overlap : Nat) :
    Option (Except String (FaissIndex × List BuildMeta)) :=
  match chunkDocs maxChars overlap corpus with
  | none => none
  | some metas =>
    if metas = [] then some (.error "No text chunks found")
    else
      some (.ok (build_faiss_index ((metas.map fun m => m.text).map embed), metas))

/-! ## API glue — `src/api/app.py` -/

/-- A Python attribute / dictionary value as handled by the API glue.
`PyVal.none` is Python `None`. -/
inductive PyVal where
  | none
  | str (s : String)
  | int (n : Int)
deriving DecidableEq, Repr

/-- Python `str(v)` on the modelled values; `str(None)` is the
four-character string `"None"`. -/
def PyVal.pyStr : PyVal → String
  | .none => "None"
  | .str s => s
  | .int n => toString n

/-- `_get_attr_or_key(obj, name, default)` (src/api/app.py lines
107-118).  A result object — dict or attribute-carrying object alike —
is modelled as the map `attrs` from field name to present value
(`Option.none` = key absent / `hasattr` false), which collapses the
dict and `getattr` branches into one lookup. -/
def getAttrOrKey (attrs : String → Option PyVal) (name : String)
    (default : PyVal) : PyVal :=
  match attrs name with
  | some v => v
  | Option.none => default

/-- The `SearchResult` Pydantic model (src/api/app.py lines 30-43);
the float `score` is carried by `Int` as everywhere in this file. -/
structure SearchResult where
  doc_id : String
  chunk_id : Int
  score : Int
  text : String
deriving DecidableEq, Repr

/-- `_result_to_search_result(r)` (src/api/app.py lines 121-140):
`doc_id` and `text` go through `str(...)`, `chunk_id` through
`int(...)` and `score` through `float(...)`.  The two numeric
conversions are modelled only on values that already are numbers
(`int(None)` or `float` of a non-numeric value raises in Python, which
the `Option.none` result records); the claims under study exercise the
`text` field, whose `str(...)` conversion is total. -/
def result_to_search_result (attrs : String → Option PyVal) :
    Option SearchResult :=
  let docId := getAttrOrKey attrs "doc_id" (.str "unknown")
  let chunkId := getAttrOrKey attrs "chunk_id" (.int 0)
  let score := getAttrOrKey attrs "score" (.int 0)
  let text := getAttrOrKey attrs "text" (.str "")
  match chunkId, score with
  | .int ci, .int sc => some ⟨docId.pyStr, ci, sc, text.pyStr⟩
  | _, _ => Option.none

/-- The `cfg = get_app_config().llm` fields used by
`_call_llm_via_httpx` (compare `LLMConfig` in src/config.py). -/
structure LLMConfig where
  provider : String
  model_name : String
  api_base : String
  api_key_env : String
deriving DecidableEq, Repr

/-- Outcome of the whole `try` block of `_call_llm_via_httpx`
(src/api/app.py lines 230-248) as far as the function's result depends
on it:

* `exc name` — the HTTP call, `raise_for_status` or `resp.json()`
  raised an exception whose `type(exc).__name__` is `name`;
* `ok contents` — a response arrived; `contents` lists, per choice, the
  message content after `message.get("content") or ""`, where
  `Option.none` stands for a non-string content value (the
  `isinstance(content, str)` check fails on it).  A missing or null
  `"choices"` key yields the empty list (`data.get("choices") or []`). -/
inductive LlmHttpOutcome where
  | exc (name : String)
  | ok (contents : List (Option String))
deriving DecidableEq, Repr

/-- The fixed sentence opening every fallback answer of
`_call_llm_via_httpx`. -/
def stubMarker : String := "This is a stub chat endpoint response. "

/-- Text of the stub-mode answer after the marker. -/
def stubModeBody (query : String) : String :=
  "Your query was: '" ++ query ++
    "'. In a full RAG pipeline, this would call an LLM with the retrieved context."

/-- Stub-mode answer (src/api/app.py lines 186-191). -/
def stubModeAnswer (query : String) : String :=
  stubMarker ++ stubModeBody query

/-- Text of the missing-API-key answer after the marker. -/
def stubMissingKeyBody (apiKeyEnv : String) : String :=
  "LLM provider is configured but API key is missing. " ++
    "Please set the environment variable " ++ apiKeyEnv ++
    " to enable real LLM calls."

/-- Missing-API-key answer (src/api/app.py lines 194-200). -/
def stubMissingKeyAnswer (apiKeyEnv : String) : String :=
  stubMarker ++ stubMissingKeyBody apiKeyEnv

/-- No-choices answer (src/api/app.py lines 236-240). -/
def stubNoChoicesAnswer : String :=
  stubMarker ++
    "LLM call returned no choices. Please check your model and request parameters."

/-- Text of the no-choices answer after the marker. -/
def stubNoChoicesBody : String :=
  "LLM call returned no choices. Please check your model and request parameters."

/-- Empty-content answer (src/api/app.py lines 243-247). -/
def stubEmptyAnswer : String :=
  stubMarker ++ "LLM call returned an empty answer. Please verify the API configuration."

/-- Text of the empty-answer fallback after the marker. -/
def stubEmptyBody : String :=
  "LLM call returned an empty answer. Please verify the API configuration."

/-- Text of the exception fallback after the marker. -/
def stubErrorBody (excName : String) : String :=
  "An error occurred while calling the LLM backend: " ++ excName ++
    ". Check logs and LLM API configuration."

/-- Exception-fallback answer (src/api/app.py lines 249-256). -/
def stubErrorAnswer (excName : String) : String :=
  stubMarker ++ stubErrorBody excName

/-- Python `s.lower()` on the ASCII configuration strings involved:
a structural character map (`Char.toLower` only affects ASCII
letters). -/
def pyLower (s : String) : String :=
  String.mk (s.data.map Char.toLower)

/-- `_call_llm_via_httpx(query, context)` (src/api/app.py lines
170-256).  `env` is `os.getenv`; the prompt, headers and payload only
feed the HTTP request abstracted by `outcome`, so they do not appear.
Python `content.strip()` is `String.trim`. -/
def call_llm_via_httpx (cfg : LLMConfig) (env : String → Option String)
    (outcome : LlmHttpOutcome) (query : String) : String :=
  if pyLower cfg.provider = "stub" then
    stubModeAnswer query
  else
    if (env cfg.api_key_env).getD "" = "" then
      stubMissingKeyAnswer cfg.api_key_env
    else
      match outcome with
      | .exc name => stubErrorAnswer name
      | .ok contents =>
        match contents with
        | [] => stubNoChoicesAnswer
        | c :: _ =>
          match c with
          | Option.none => stubEmptyAnswer
          | some s => if s.trim = "" then stubEmptyAnswer else s.trim

/-! ## Helper lemmas on the string primitives -/

/-- An element that fails the predicate survives `dropWhile`. -/
lemma mem_dropWhile_of_not_pred {α : Type} {p : α → Bool} {c : α} :
    ∀ {l : List α}, c ∈ l → p c = false → c ∈ l.dropWhile p := by
  intro l
  induction l with
  | nil => intro hc; cases hc
  | cons a t ih =>
    intro hc hp
    rw [List.dropWhile_cons]
    by_cases ha : p a = true
    · rw [if_pos ha]
      rcases List.mem_cons.mp hc with hca | hct
      · subst hca; rw [hp] at ha; cases ha
      · exact ih hct hp
    · rw [if_neg ha]
      exact hc

/-- A non-whitespace character of `s` survives `pyStrip`. -/
lemma mem_pyStrip {c : Char} {s : List Char} (hc : c ∈ s)
    (hp : isPySpace c = false) : c ∈ pyStrip s := by
  unfold pyStrip
  have h1 : c ∈ s.dropWhile isPySpace := mem_dropWhile_of_not_pred hc hp
  have h2 : c ∈ (s.dropWhile isPySpace).reverse := List.mem_reverse.mpr h1
  have h3 := mem_dropWhile_of_not_pred h2 hp
  exact List.mem_reverse.mpr h3

/-- `pyStrip` only removes characters. -/
lemma mem_of_mem_pyStrip {c : Char} {s : List Char} (h : c ∈ pyStrip s) :
    c ∈ s := by
  unfold pyStrip at h
  have h1 := List.mem_reverse.mp h
  have h2 := (@List.dropWhile_sublist _ ((s.dropWhile isPySpace).reverse) isPySpace).mem h1
  have h3 := List.mem_reverse.mp h2
  exact (@List.dropWhile_sublist _ s isPySpace).mem h3

/-- Stripping an all-whitespace string leaves nothing. -/
lemma pyStrip_eq_nil_of_all_space {s : List Char}
    (h : ∀ c ∈ s, isPySpace c = true) : pyStrip s = [] := by
  unfold pyStrip
  rw [List.dropWhile_eq_nil_iff.mpr h]
  simp

/-- A non-empty stripped string contains a non-whitespace character. -/
lemma exists_nonspace_of_pyStrip_ne_nil {s : List Char}
    (h : pyStrip s ≠ []) : ∃ c ∈ pyStrip s, isPySpace c = false := by
  by_cases hs : ∃ c ∈ s, isPySpace c = false
  · obtain ⟨c, hcs, hcf⟩ := hs
    exact ⟨c, mem_pyStrip hcs hcf, hcf⟩
  · push_neg at hs
    exact absurd (pyStrip_eq_nil_of_all_space fun c hc => by
      have := hs c hc
      revert this
      cases isPySpace c <;> simp) h

/-- A character other than CR and LF is preserved by `replaceCRLF`. -/
lemma mem_replaceCRLF {c : Char} (hc1 : c ≠ '\r') (hc2 : c ≠ '\n') :
    ∀ {text : List Char}, c ∈ text → c ∈ replaceCRLF text := by
  intro text
  induction text using replaceCRLF.induct with
  | case1 => intro hc; cases hc
  | case2 rest ih =>
    intro hc
    rw [replaceCRLF]
    rcases List.mem_cons.mp hc with h | h
    · exact absurd h hc1
    · rcases List.mem_cons.mp h with h' | h'
      · exact absurd h' hc2
      · exact List.mem_cons_of_mem _ (ih h')
  | case3 a rest hne ih =>
    intro hc
    rw [replaceCRLF]
    · rcases List.mem_cons.mp hc with h | h
      · exact h ▸ List.mem_cons_self _ _
      · exact List.mem_cons_of_mem _ (ih h)
    · exact hne

/-- Every character of `s` other than LF lands in some part of
`splitOnNN s`. -/
lemma mem_splitOnNN {c : Char} (hc : c ≠ '\n') :
    ∀ {s : List Char}, c ∈ s → ∃ part ∈ splitOnNN s, c ∈ part := by
  intro s
  induction s using splitOnNN.induct with
  | case1 => intro h; cases h
  | case2 rest ih =>
    intro h
    rcases List.mem_cons.mp h with h' | h'
    · exact absurd h' hc
    · rcases List.mem_cons.mp h' with h'' | h''
      · exact absurd h'' hc
      · obtain ⟨part, hp, hcp⟩ := ih h''
        exact ⟨part, by rw [splitOnNN]; exact List.mem_cons_of_mem _ hp, hcp⟩
  | case3 a rest hne hnil ih =>
    intro h
    rcases List.mem_cons.mp h with h' | h'
    · subst h'
      refine ⟨[c], ?_, List.mem_cons_self _ _⟩
      rw [splitOnNN]
      · rw [hnil]
        show [c] ∈ [[c]]
        exact List.mem_cons_self _ _
      · exact hne
    · obtain ⟨part, hp, _⟩ := ih h'
      rw [hnil] at hp
      cases hp
  | case4 a rest hne h t hcons ih =>
    intro hmem
    rcases List.mem_cons.mp hmem with h' | h'
    · subst h'
      refine ⟨c :: h, ?_, List.mem_cons_self _ _⟩
      rw [splitOnNN]
      · rw [hcons]
        show c :: h ∈ (c :: h) :: t
        exact List.mem_cons_self _ _
      · exact hne
    · obtain ⟨part, hp, hcp⟩ := ih h'
      rw [hcons] at hp
      rcases List.mem_cons.mp hp with hph | hpt
      · refine ⟨a :: h, ?_, ?_⟩
        · rw [splitOnNN]
          · rw [hcons]
            show a :: h ∈ (a :: h) :: t
            exact List.mem_cons_self _ _
          · exact hne
        · exact List.mem_cons_of_mem _ (hph ▸ hcp)
      · refine ⟨part, ?_, hcp⟩
        rw [splitOnNN]
        · rw [hcons]
          show part ∈ (a :: h) :: t
          exact List.mem_cons_of_mem _ hpt
        · exact hne

/-- A character of a part is a character of the join. -/
lemma mem_joinNN {c : Char} :
    ∀ {parts : List (List Char)} {q : List Char},
      q ∈ parts → c ∈ q → c ∈ joinNN parts := by
  intro parts
  induction parts using joinNN.induct with
  | case1 => intro q hq; cases hq
  | case2 p =>
    intro q hq hc
    rcases List.mem_cons.mp hq with h | h
    · rw [joinNN]; exact h ▸ hc
    · cases h
  | case3 p q' rest ih =>
    intro q hq hc
    rw [joinNN]
    rcases List.mem_cons.mp hq with h | h
    · exact List.mem_append_left _ (h ▸ hc)
    · exact List.mem_append_right _ (List.mem_cons_of_mem _ (List.mem_cons_of_mem _ (ih h hc)))

/-! ## Lemmas about the paragraph-packing chunker -/

/-- A non-whitespace character of the input text lands in some
paragraph of `paragraphsOf`. -/
lemma paragraphsOf_covers {c : Char} (hc : isPySpace c = false)
    {text : List Char} (hm : c ∈ text) :
    ∃ p ∈ paragraphsOf text, c ∈ p := by
  have hcr : c ≠ '\r' := by
    intro h; subst h; simp [isPySpace] at hc
  have hcn : c ≠ '\n' := by
    intro h; subst h; simp [isPySpace] at hc
  have h1 : c ∈ replaceCRLF text := mem_replaceCRLF hcr hcn hm
  obtain ⟨part, hpart, hcpart⟩ := mem_splitOnNN hcn h1
  have h2 : c ∈ pyStrip part := mem_pyStrip hcpart hc
  refine ⟨pyStrip part, ?_, h2⟩
  unfold paragraphsOf
  refine List.mem_filter.mpr ⟨List.mem_map_of_mem _ hpart, ?_⟩
  exact decide_eq_true (List.ne_nil_of_mem h2)

/-- Every paragraph produced by `paragraphsOf` contains a
non-whitespace character. -/
lemma paragraphsOf_nonspace {text : List Char} {p : List Char}
    (hp : p ∈ paragraphsOf text) : ∃ c ∈ p, isPySpace c = false := by
  unfold paragraphsOf at hp
  obtain ⟨hmem, hne⟩ := List.mem_filter.mp hp
  obtain ⟨part, _, hpart⟩ := List.mem_map.mp hmem
  subst hpart
  exact exists_nonspace_of_pyStrip_ne_nil (of_decide_eq_true hne)

/-- A character is covered by an intermediate packing state if it
occurs in a flushed chunk or in the chunk under construction. -/
def coveredIn (c : Char) (st : PackState) : Prop :=
  (∃ ch ∈ st.chunks, c ∈ ch) ∨ (∃ q ∈ st.current, c ∈ q)

/-- `packStep` never loses a covered character. -/
lemma coveredIn_packStep {c : Char} {st : PackState} {p : List Char}
    (m o : Nat) (h : coveredIn c st) : coveredIn c (packStep m o st p) := by
  unfold packStep coveredIn
  by_cases hcond : st.current ≠ [] ∧ st.currentLen + (p.length + 2) > m
  · rw [if_pos hcond]
    have hmoved : (∃ ch ∈ st.chunks ++ [joinNN st.current], c ∈ ch) := by
      rcases h with ⟨ch, hch, hc⟩ | ⟨q, hq, hc⟩
      · exact ⟨ch, List.mem_append_left _ hch, hc⟩
      · exact ⟨joinNN st.current, List.mem_append_right _ (List.mem_cons_self _ _),
          mem_joinNN hq hc⟩
    by_cases hov : o > 0 ∧ (joinNN st.current).length > o
    · rw [if_pos hov]
      exact Or.inl hmoved
    · rw [if_neg hov]
      exact Or.inl hmoved
  · rw [if_neg hcond]
    rcases h with ⟨ch, hch, hc⟩ | ⟨q, hq, hc⟩
    · exact Or.inl ⟨ch, hch, hc⟩
    · exact Or.inr ⟨q, List.mem_append_left _ hq, hc⟩

/-- `packStep` covers every character of the paragraph it consumes. -/
lemma coveredIn_packStep_self {c : Char} {p : List Char} (hc : c ∈ p)
    (st : PackState) (m o : Nat) : coveredIn c (packStep m o st p) := by
  unfold packStep coveredIn
  by_cases hcond : st.current ≠ [] ∧ st.currentLen + (p.length + 2) > m
  · rw [if_pos hcond]
    by_cases hov : o > 0 ∧ (joinNN st.current).length > o
    · rw [if_pos hov]
      exact Or.inr ⟨p, List.mem_cons_of_mem _ (List.mem_cons_self _ _), hc⟩
    · rw [if_neg hov]
      exact Or.inr ⟨p, List.mem_cons_self _ _, hc⟩
  · rw [if_neg hcond]
    exact Or.inr ⟨p, List.mem_append_right _ (List.mem_cons_self _ _), hc⟩

/-- Folding `packStep` over a paragraph list covers every character of
every paragraph (and keeps previously covered ones). -/
lemma coveredIn_foldl {c : Char} (m o : Nat) :
    ∀ (ps : List (List Char)) (st : PackState),
      ((∃ p ∈ ps, c ∈ p) ∨ coveredIn c st) →
      coveredIn c (ps.foldl (packStep m o) st) := by
  intro ps
  induction ps with
  | nil =>
    intro st h
    rcases h with ⟨p, hp, _⟩ | h
    · cases hp
    · exact h
  | cons a t ih =>
    intro st h
    rw [List.foldl_cons]
    rcases h with ⟨p, hp, hc⟩ | h
    · rcases List.mem_cons.mp hp with hpa | hpt
      · exact ih _ (Or.inr (coveredIn_packStep_self (hpa ▸ hc) st m o))
      · exact ih _ (Or.inl ⟨p, hpt, hc⟩)
    · exact ih _ (Or.inr (coveredIn_packStep m o h))

/-- Coverage for `split_into_chunks`: every non-whitespace character of
the input occurs in some produced chunk. -/
lemma split_into_chunks_covers {c : Char} {text : List Char}
    (m o : Nat) (hc : isPySpace c = false) (hm : c ∈ text) :
    ∃ ch ∈ split_into_chunks text m o, c ∈ ch := by
  obtain ⟨p, hp, hcp⟩ := paragraphsOf_covers hc hm
  have h := coveredIn_foldl m o (paragraphsOf text) ⟨[], [], 0⟩ (Or.inl ⟨p, hp, hcp⟩)
  unfold split_into_chunks
  rcases h with ⟨ch, hch, hcch⟩ | ⟨q, hq, hcq⟩
  · by_cases hcur : ((paragraphsOf text).foldl (packStep m o) ⟨[], [], 0⟩).current = []
    · rw [if_pos hcur]; exact ⟨ch, hch, hcch⟩
    · rw [if_neg hcur]; exact ⟨ch, List.mem_append_left _ hch, hcch⟩
  · have hcur : ((paragraphsOf text).foldl (packStep m o) ⟨[], [], 0⟩).current ≠ [] :=
      List.ne_nil_of_mem hq
    rw [if_neg hcur]
    exact ⟨joinNN ((paragraphsOf text).foldl (packStep m o) ⟨[], [], 0⟩).current,
      List.mem_append_right _ (List.mem_cons_self _ _), mem_joinNN hq hcq⟩

/-- Invariant of the packing loop: every flushed chunk contains some
non-whitespace character, and if a chunk is under construction so does
one of its paragraphs. -/
def packInv (st : PackState) : Prop :=
  (∀ ch ∈ st.chunks, ∃ c ∈ ch, isPySpace c = false) ∧
  (st.current ≠ [] → ∃ q ∈ st.current, ∃ c ∈ q, isPySpace c = false)

/-- `packStep` preserves `packInv` when fed a paragraph containing a
non-whitespace character. -/
lemma packInv_packStep {st : PackState} {p : List Char} (m o : Nat)
    (hp : ∃ c ∈ p, isPySpace c = false) (h : packInv st) :
    packInv (packStep m o st p) := by
  obtain ⟨hchunks, hcur⟩ := h
  unfold packStep packInv
  by_cases hcond : st.current ≠ [] ∧ st.currentLen + (p.length + 2) > m
  · rw [if_pos hcond]
    have hjoin : ∃ c ∈ joinNN st.current, isPySpace c = false := by
      obtain ⟨q, hq, cq, hcq, hcqf⟩ := hcur hcond.1
      exact ⟨cq, mem_joinNN hq hcq, hcqf⟩
    have hchunks' : ∀ ch ∈ st.chunks ++ [joinNN st.current],
        ∃ c ∈ ch, isPySpace c = false := by
      intro ch hch
      rcases List.mem_append.mp hch with hl | hr
      · exact hchunks ch hl
      · rcases List.mem_cons.mp hr with he | hn
        · exact he ▸ hjoin
        · cases hn
    by_cases hov : o > 0 ∧ (joinNN st.current).length > o
    · rw [if_pos hov]
      exact ⟨hchunks', fun _ =>
        ⟨p, List.mem_cons_of_mem _ (List.mem_cons_self _ _), hp⟩⟩
    · rw [if_neg hov]
      exact ⟨hchunks', fun _ => ⟨p, List.mem_cons_self _ _, hp⟩⟩
  · rw [if_neg hcond]
    exact ⟨hchunks, fun _ =>
      ⟨p, List.mem_append_right _ (List.mem_cons_self _ _), hp⟩⟩

/-- `packInv` holds after folding over any list of good paragraphs. -/
lemma packInv_foldl (m o : Nat) :
    ∀ (ps : List (List Char)) (st : PackState),
      (∀ p ∈ ps, ∃ c ∈ p, isPySpace c = false) → packInv st →
      packInv (ps.foldl (packStep m o) st) := by
  intro ps
  induction ps with
  | nil => intro st _ h; exact h
  | cons a t ih =>
    intro st hps h
    rw [List.foldl_cons]
    exact ih _ (fun p hp => hps p (List.mem_cons_of_mem _ hp))
      (packInv_packStep m o (hps a (List.mem_cons_self _ _)) h)

/-- No chunk of `split_into_chunks` is empty after stripping. -/
lemma split_into_chunks_nonempty {text : List Char} (m o : Nat) :
    ∀ ch ∈ split_into_chunks text m o, pyStrip ch ≠ [] := by
  have hinv := packInv_foldl m o (paragraphsOf text) ⟨[], [], 0⟩
    (fun p hp => paragraphsOf_nonspace hp)
    ⟨fun ch hch => absurd hch (List.not_mem_nil ch), fun h => absurd rfl h⟩
  intro ch hch
  unfold split_into_chunks at hch
  have hnon : ∃ c ∈ ch, isPySpace c = false := by
    by_cases hcur : ((paragraphsOf text).foldl (packStep m o) ⟨[], [], 0⟩).current = []
    · rw [if_pos hcur] at hch
      exact hinv.1 ch hch
    · rw [if_neg hcur] at hch
      rcases List.mem_append.mp hch with hl | hr
      · exact hinv.1 ch hl
      · rcases List.mem_cons.mp hr with he | hn
        · obtain ⟨q, hq, cq, hcq, hcqf⟩ := hinv.2 hcur
          exact he ▸ ⟨cq, mem_joinNN hq hcq, hcqf⟩
        · cases hn
  obtain ⟨c, hcch, hcf⟩ := hnon
  exact List.ne_nil_of_mem (mem_pyStrip hcch hcf)

/-- Empty input yields zero chunks. -/
lemma split_into_chunks_nil (m o : Nat) : split_into_chunks [] m o = [] := rfl

/-! ## Lemmas about the character-window chunker -/

/-- Decomposition of a suffix at an intermediate position: the window
`s[a:b]` followed by the suffix from `b` is the suffix from `a`. -/
lemma drop_eq_slice_append (s : List Char) (a b : Nat) (hab : a ≤ b) :
    s.drop a = sliceList s a b ++ s.drop b := by
  unfold sliceList
  conv_lhs => rw [← List.take_append_drop b s]
  rw [List.drop_append_eq_append_drop]
  congr 1
  rcases Nat.lt_or_ge (s.take b).length a with hlt | hle
  · have hblen : s.length < a := by
      rw [List.length_take] at hlt
      omega
    have hb : s.length ≤ b := by omega
    rw [List.drop_eq_nil_of_le hb]
    simp
  · rw [Nat.sub_eq_zero_of_le hle, List.drop_zero]

/-- With `overlap < max_chars`, `len(cleaned) - start + 1` units of fuel
suffice: the loop of `simple_chunk_text` terminates. -/
lemma simpleChunkLoop_isSome (cleaned : List Char) (maxChars overlap : Nat)
    (h : overlap < maxChars) :
    ∀ (fuel start : Nat) (chunks : List (List Char)),
      cleaned.length - start < fuel →
      (simpleChunkLoop cleaned maxChars overlap fuel start chunks).isSome := by
  intro fuel
  induction fuel with
  | zero => intro start chunks h2; omega
  | succ f ih =>
    intro start chunks h2
    rw [simpleChunkLoop]
    by_cases hs : start < cleaned.length
    · rw [if_pos hs]
      by_cases hne : cleaned.length ≤ min (start + maxChars) cleaned.length
      · rw [if_pos hne]; rfl
      · rw [if_neg hne]
        apply ih
        have he : min (start + maxChars) cleaned.length = start + maxChars := by omega
        omega
    · rw [if_neg hs]; rfl

/-- Soundness of the loop of `simple_chunk_text`: the accumulator is
kept, every non-whitespace character of the remaining suffix lands in
some result chunk, and every result chunk is either inherited from the
accumulator or contains a non-whitespace character. -/
lemma simpleChunkLoop_sound (cleaned : List Char) (maxChars overlap : Nat) :
    ∀ (fuel start : Nat) (chunks res : List (List Char)),
      simpleChunkLoop cleaned maxChars overlap fuel start chunks = some res →
      (∀ ch ∈ chunks, ch ∈ res) ∧
      (∀ c, isPySpace c = false → c ∈ cleaned.drop start → ∃ ch ∈ res, c ∈ ch) ∧
      (∀ ch ∈ res, ch ∈ chunks ∨ ∃ c ∈ ch, isPySpace c = false) := by
  intro fuel
  induction fuel with
  | zero => intro start chunks res h; cases h
  | succ f ih =>
    intro start chunks res h
    rw [simpleChunkLoop] at h
    by_cases hs : start < cleaned.length
    · rw [if_pos hs] at h
      by_cases hne : cleaned.length ≤ min (start + maxChars) cleaned.length
      · rw [if_pos hne] at h
        -- final window: the slice reaches the end of the text
        have he : min (start + maxChars) cleaned.length = cleaned.length := by omega
        rw [he] at h
        have hkeep : ∀ ch ∈ chunks, ch ∈ res := by
          intro ch hch
          rcases Option.some.inj h with rfl
          by_cases hemp : pyStrip (sliceList cleaned start cleaned.length) ≠ []
          · rw [if_pos hemp]; exact List.mem_append_left _ hch
          · rw [if_neg hemp]; exact hch
        refine ⟨hkeep, ?_, ?_⟩
        · intro c hcf hcd
          have hslice : sliceList cleaned start cleaned.length = cleaned.drop start := by
            unfold sliceList
            rw [List.take_of_length_le (Nat.le_refl _)]
          have hcs : c ∈ pyStrip (sliceList cleaned start cleaned.length) := by
            rw [hslice]; exact mem_pyStrip hcd hcf
          have hne' : pyStrip (sliceList cleaned start cleaned.length) ≠ [] :=
            List.ne_nil_of_mem hcs
          rcases Option.some.inj h with rfl
          rw [if_pos hne']
          exact ⟨pyStrip (sliceList cleaned start cleaned.length),
            List.mem_append_right _ (List.mem_cons_self _ _), hcs⟩
        · intro ch hch
          rcases Option.some.inj h with rfl
          by_cases hemp : pyStrip (sliceList cleaned start cleaned.length) ≠ []
          · rw [if_pos hemp] at hch
            rcases List.mem_append.mp hch with hl | hr
            · exact Or.inl hl
            · rcases List.mem_cons.mp hr with he' | hn
              · exact Or.inr (he' ▸ exists_nonspace_of_pyStrip_ne_nil hemp)
              · cases hn
          · rw [if_neg hemp] at hch
            exact Or.inl hch
      · rw [if_neg hne] at h
        -- recursive case: the window stops before the end of the text
        have he : min (start + maxChars) cleaned.length = start + maxChars := by omega
        obtain ⟨hkeep, hcov, hgood⟩ := ih _ _ _ h
        have hsub : ∀ ch ∈ chunks, ch ∈
            (if pyStrip (sliceList cleaned start (min (start + maxChars) cleaned.length)) ≠ []
             then chunks ++ [pyStrip (sliceList cleaned start (min (start + maxChars) cleaned.length))]
             else chunks) := by
          intro ch hch
          by_cases hemp : pyStrip (sliceList cleaned start (min (start + maxChars) cleaned.length)) ≠ []
          · rw [if_pos hemp]; exact List.mem_append_left _ hch
          · rw [if_neg hemp]; exact hch
        refine ⟨fun ch hch => hkeep _ (hsub ch hch), ?_, ?_⟩
        · intro c hcf hcd
          have hdec := drop_eq_slice_append cleaned start
            (min (start + maxChars) cleaned.length) (by omega)
          rw [hdec] at hcd
          rcases List.mem_append.mp hcd with hwin | hrest
          · -- the character sits inside the current window
            have hcs : c ∈ pyStrip (sliceList cleaned start
                (min (start + maxChars) cleaned.length)) := mem_pyStrip hwin hcf
            have hne' : pyStrip (sliceList cleaned start
                (min (start + maxChars) cleaned.length)) ≠ [] := List.ne_nil_of_mem hcs
            refine ⟨_, hkeep _ ?_, hcs⟩
            rw [if_pos hne']
            exact List.mem_append_right _ (List.mem_cons_self _ _)
          · -- the character sits beyond the window: the next windows
            -- start at `e - overlap ≤ e`, so the suffix from `e` is
            -- contained in the suffix from `e - overlap`
            apply hcov c hcf
            have hdd : cleaned.drop (min (start + maxChars) cleaned.length) =
                (cleaned.drop (min (start + maxChars) cleaned.length - overlap)).drop
                  (min (start + maxChars) cleaned.length -
                    (min (start + maxChars) cleaned.length - overlap)) := by
              rw [List.drop_drop]
              congr 1
              omega
            rw [hdd] at hrest
            exact List.mem_of_mem_drop hrest
        · intro ch hch
          rcases hgood ch hch with hin | hex
          · by_cases hemp : pyStrip (sliceList cleaned start
                (min (start + maxChars) cleaned.length)) ≠ []
            · rw [if_pos hemp] at hin
              rcases List.mem_append.mp hin with hl | hr
              · exact Or.inl hl
              · rcases List.mem_cons.mp hr with he' | hn
                · exact Or.inr (he' ▸ exists_nonspace_of_pyStrip_ne_nil hemp)
                · cases hn
            · rw [if_neg hemp] at hin
              exact Or.inl hin
          · exact Or.inr hex
    · rw [if_neg hs] at h
      rcases Option.some.inj h with rfl
      refine ⟨fun ch hch => hch, ?_, fun ch hch => Or.inl hch⟩
      intro c _ hcd
      rw [List.drop_eq_nil_of_le (by omega)] at hcd
      cases hcd

/-- Top-level soundness of `simple_chunk_text` on a terminating run:
coverage of non-whitespace characters, no chunk empty after stripping,
and empty input gives zero chunks. -/
lemma simple_chunk_text_sound {text : List Char} {maxChars overlap : Nat}
    {res : List (List Char)}
    (h : simple_chunk_text text maxChars overlap = some res) :
    (∀ c ∈ text, isPySpace c = false → ∃ ch ∈ res, c ∈ ch) ∧
    (∀ ch ∈ res, pyStrip ch ≠ []) ∧
    (text = [] → res = []) := by
  unfold simple_chunk_text at h
  obtain ⟨_, hcov, hgood⟩ := simpleChunkLoop_sound (replaceCRLF text)
    maxChars overlap _ 0 [] res h
  refine ⟨?_, ?_, ?_⟩
  · intro c hct hcf
    have hcr : c ≠ '\r' := by intro hh; subst hh; simp [isPySpace] at hcf
    have hcn : c ≠ '\n' := by intro hh; subst hh; simp [isPySpace] at hcf
    exact hcov c hcf (by rw [List.drop_zero]; exact mem_replaceCRLF hcr hcn hct)
  · intro ch hch
    rcases hgood ch hch with hin | ⟨c, hcch, hcf⟩
    · cases hin
    · exact List.ne_nil_of_mem (mem_pyStrip hcch hcf)
  · intro ht
    subst ht
    exact Option.some.inj h.symm

/-! ## Lemmas about the retriever -/

/-- `filterMap` and `filter` agree in length when the predicate tracks
definedness of the partial map. -/
lemma length_filterMap_eq_length_filter {α β : Type} (f : α → Option β)
    (p : α → Bool) (hfp : ∀ a, (f a).isSome = p a) :
    ∀ l : List α, (l.filterMap f).length = (l.filter p).length := by
  intro l
  induction l with
  | nil => rfl
  | cons a t ih =>
    rw [List.filterMap_cons, List.filter_cons]
    cases hfa : f a with
    | none =>
      have hpa : p a = false := by rw [← hfp a, hfa]; rfl
      rw [hpa]
      simpa using ih
    | some b =>
      have hpa : p a = true := by rw [← hfp a, hfa]; rfl
      rw [hpa]
      simp only [List.length_cons, if_true]
      rw [ih]

/-- Definedness of `processPair` is decided by sign of the row id and
presence of its metadata record. -/
lemma processPair_isSome_eq (st : RetrieverState) (wt : Bool) (p : Int × Int) :
    (processPair st wt p).isSome =
      (decide (0 ≤ p.2) && (st.rowidToMeta p.2).isSome) := by
  unfold processPair
  by_cases hneg : p.2 < 0
  · rw [if_pos hneg]
    have : decide (0 ≤ p.2) = false := by
      simp
      omega
    rw [this]
    rfl
  · rw [if_neg hneg]
    have h0 : decide (0 ≤ p.2) = true := by
      simp
      omega
    rw [h0]
    cases hm : st.rowidToMeta p.2 <;> simp [hm]

/-- `processPair` keeps a pair exactly when its row id is non-negative
and the metadata lookup succeeds. -/
lemma processPair_isSome (st : RetrieverState) (wt : Bool) (p : Int × Int)
    (h1 : 0 ≤ p.2) (h2 : (st.rowidToMeta p.2).isSome) :
    (processPair st wt p).isSome := by
  rw [processPair_isSome_eq]
  rw [h2, decide_eq_true h1]
  rfl

/-- In the branch where the search loop actually runs, `search` is the
defensive sort of the per-pair results. -/
lemma search_eq_mergeSort (st : RetrieverState) (q : String)
    (tk : Option Int) (wt : Bool) (hn : st.ntotal ≠ 0)
    (hk : 0 < pyOrInt tk st.defaultTopK) :
    VectorRetriever.search st q tk wt =
      ((st.indexSearch q (pyOrInt tk st.defaultTopK)).filterMap
        (processPair st wt)).mergeSort scoreDescLe := by
  unfold VectorRetriever.search
  rw [if_neg hn, if_neg (by omega)]

/-! ## Concrete states used by witnesses and counterexamples -/

/-- A retriever whose FAISS index is empty. -/
def emptyIndexState : RetrieverState :=
  { ntotal := 0
    indexSearch := fun _ _ => []
    rowidToMeta := fun _ => Option.none
    chunkText := fun _ _ => Option.none
    defaultTopK := 5 }

/-- A retriever over a one-vector index with `default_top_k = 5`: the
index answers a query with one live pair of score 7 at row id 0 and
pads the remaining slots with the FAISS sentinel row id `-1`; text
reconstruction always fails. -/
def demoState : RetrieverState :=
  { ntotal := 1
    indexSearch := fun _ k =>
      if k ≤ 0 then []
      else ((7 : Int), (0 : Int)) :: List.replicate (k.toNat - 1) ((-1 : Int), (-1 : Int))
    rowidToMeta := fun i =>
      if i = 0 then some { doc_id := "doc.txt", chunk_id := 0 } else Option.none
    chunkText := fun _ _ => Option.none
    defaultTopK := 5 }

/-! ## Claim C1 -/

/-- C1, counterexample to the claim as stated: on a one-vector index
with `default_top_k = 5`, calling `search` with `top_k = 0` does not
return the empty list.  Python's `k = top_k or self.default_top_k`
treats `0` as falsy and substitutes the default, so the guard
`if k <= 0: return []` is never reached and one result comes back. -/
theorem C1_counterexample :
    demoState.ntotal ≠ 0 ∧
    VectorRetriever.search demoState "q" (some 0) true =
      [{ doc_id := "doc.txt", chunk_id := 0, score := 7, text := Option.none }] := by
  constructor
  · decide
  · rw [search_eq_mergeSort demoState "q" (some 0) true (by decide) (by decide)]
    have h : (demoState.indexSearch "q" (pyOrInt (some 0) demoState.defaultTopK)).filterMap
        (processPair demoState true) =
        [{ doc_id := "doc.txt", chunk_id := 0, score := 7, text := Option.none }] := by
      decide
    rw [h, List.mergeSort_singleton]

/-- C1 (amended): `VectorRetriever.search` returns the empty list when
the loaded index holds zero vectors and when `top_k` is negative; but a
`top_k` of `0` is falsy in `top_k or self.default_top_k`, so the call
behaves exactly like one with `top_k = None` (the configured default)
instead of returning the empty list. -/
theorem C1_search_empty_cases (st : RetrieverState) (q : String)
    (tk : Option Int) (wt : Bool) :
    (st.ntotal = 0 → VectorRetriever.search st q tk wt = []) ∧
    (∀ t : Int, t < 0 → VectorRetriever.search st q (some t) wt = []) ∧
    VectorRetriever.search st q (some 0) wt =
      VectorRetriever.search st q Option.none wt := by
  refine ⟨?_, ?_, ?_⟩
  · intro h
    unfold VectorRetriever.search
    rw [if_pos h]
  · intro t ht
    unfold VectorRetriever.search
    by_cases h : st.ntotal = 0
    · rw [if_pos h]
    · rw [if_neg h]
      have hpy : pyOrInt (some t) st.defaultTopK = t := by
        simp only [pyOrInt]
        rw [if_neg (by omega)]
      rw [hpy, if_pos (by omega)]
  · unfold VectorRetriever.search
    have hpy : pyOrInt (some 0) st.defaultTopK = pyOrInt Option.none st.defaultTopK := by
      simp [pyOrInt]
    rw [hpy]

/-- C1, witness: the amended theorem applied to the empty index and to a
negative `top_k` on the demo index. -/
theorem C1_witness :
    VectorRetriever.search emptyIndexState "q" (some 3) true = [] ∧
    VectorRetriever.search demoState "q" (some (-2)) true = [] :=
  ⟨(C1_search_empty_cases emptyIndexState "q" (some 3) true).1 rfl,
   (C1_search_empty_cases demoState "q" (some 0) true).2.1 (-2) (by decide)⟩

/-! ## Claim C3 -/

/-- C3, counterexample to the claim as stated at `k = 0`: the demo index
holds at least `0` vectors, its metadata has a record for every row id,
yet `search` with `top_k = 0` returns `1` result instead of exactly
`k = 0` of them (the falsy-zero fallback of
`top_k or self.default_top_k` substitutes the default `5`). -/
theorem C3_counterexample :
    ((0 : Int) ≤ (demoState.ntotal : Int)) ∧
    (∀ i : Int, 0 ≤ i → i < (demoState.ntotal : Int) →
      (demoState.rowidToMeta i).isSome) ∧
    (VectorRetriever.search demoState "q" (some 0) true).length = 1 := by
  refine ⟨by decide, ?_, ?_⟩
  · intro i h1 h2
    have hn : demoState.ntotal = 1 := rfl
    rw [hn] at h2
    have hi : i = 0 := by omega
    rw [hi]
    decide
  · rw [search_eq_mergeSort demoState "q" (some 0) true (by decide) (by decide)]
    have h : (demoState.indexSearch "q" (pyOrInt (some 0) demoState.defaultTopK)).filterMap
        (processPair demoState true) =
        [{ doc_id := "doc.txt", chunk_id := 0, score := 7, text := Option.none }] := by
      decide
    rw [h, List.mergeSort_singleton]
    rfl

/-- C3 (amended): every result list of `VectorRetriever.search` is
non-increasing in score (the defensive re-sort), and for `top_k = k`
with `k ≥ 1`, an index holding at least `k` vectors whose search call
returns exactly `k` in-range pairs, and metadata containing a record
for every row id of the index, exactly `k` results are returned.  The
claim's unrestricted `k` fails at `k = 0` (see the counterexample). -/
theorem C3_sorted_and_count (st : RetrieverState) (q : String) (wt : Bool) :
    (∀ tk : Option Int,
      List.Pairwise (fun a b : RetrievedChunk => b.score ≤ a.score)
        (VectorRetriever.search st q tk wt)) ∧
    (∀ k : Int, 1 ≤ k → k ≤ (st.ntotal : Int) →
      (st.indexSearch q k).length = k.toNat →
      (∀ p ∈ st.indexSearch q k, 0 ≤ p.2 ∧ p.2 < (st.ntotal : Int)) →
      (∀ i : Int, 0 ≤ i → i < (st.ntotal : Int) → (st.rowidToMeta i).isSome) →
      (VectorRetriever.search st q (some k) wt).length = k.toNat) := by
  constructor
  · intro tk
    unfold VectorRetriever.search
    by_cases h : st.ntotal = 0
    · rw [if_pos h]
      exact List.Pairwise.nil
    · rw [if_neg h]
      by_cases hk : pyOrInt tk st.defaultTopK ≤ 0
      · rw [if_pos hk]
        exact List.Pairwise.nil
      · rw [if_neg hk]
        have hs := @List.sorted_mergeSort _ scoreDescLe
          (fun a b c hab hbc => by
            simp only [scoreDescLe, decide_eq_true_eq] at *
            omega)
          (fun a b => by
            simp only [scoreDescLe, Bool.or_eq_true, decide_eq_true_eq]
            omega)
          ((st.indexSearch q (pyOrInt tk st.defaultTopK)).filterMap (processPair st wt))
        exact List.Pairwise.imp (fun hab => of_decide_eq_true hab) hs
  · intro k hk1 hkn hlen hpairs hmeta
    have hn : st.ntotal ≠ 0 := by
      intro h
      rw [h] at hkn
      simp at hkn
      omega
    have hkk : pyOrInt (some k) st.defaultTopK = k := by
      simp only [pyOrInt]
      rw [if_neg (by omega)]
    have hkpos : 0 < pyOrInt (some k) st.defaultTopK := by
      rw [hkk]; omega
    rw [search_eq_mergeSort st q (some k) wt hn hkpos, List.length_mergeSort, hkk]
    rw [length_filterMap_eq_length_filter _ _ (processPair_isSome_eq st wt)]
    have hall : ∀ p ∈ st.indexSearch q k,
        (decide (0 ≤ p.2) && (st.rowidToMeta p.2).isSome) = true := by
      intro p hp
      obtain ⟨h1, h2⟩ := hpairs p hp
      have h3 := hmeta p.2 h1 h2
      simp [h1, h3]
    rw [List.filter_eq_self.mpr hall]
    exact hlen

/-- C3, witness: the amended count statement applied to the demo index
with `k = 1`, and the sortedness statement at the same call. -/
theorem C3_witness :
    (VectorRetriever.search demoState "q" (some 1) true).length = (1 : Int).toNat ∧
    List.Pairwise (fun a b : RetrievedChunk => b.score ≤ a.score)
      (VectorRetriever.search demoState "q" (some 1) true) := by
  constructor
  · apply (C3_sorted_and_count demoState "q" true).2 1 (by decide) (by decide)
      (by decide) (by decide)
    intro i h1 h2
    have hn : demoState.ntotal = 1 := rfl
    rw [hn] at h2
    have hi : i = 0 := by omega
    rw [hi]
    decide
  · exact (C3_sorted_and_count demoState "q" true).1 (some 1)

/-! ## Claim C7 -/

/-- C7: for every input text and parameters with `overlap < max_chars`,
the character-window chunker terminates: its loop needs at most
`len(cleaned) + 1` iterations because the start position strictly
increases each round, so the fuelled model returns a result. -/
theorem C7_simple_chunk_text_terminates (text : List Char)
    (maxChars overlap : Nat) (h : overlap < maxChars) :
    (simple_chunk_text text maxChars overlap).isSome := by
  unfold simple_chunk_text
  exact simpleChunkLoop_isSome (replaceCRLF text) maxChars overlap h _ 0 [] (by omega)

/-- C7, witness: termination at a concrete text and parameters. -/
theorem C7_witness : (simple_chunk_text ('a' :: 'b' :: 'c' :: []) 2 1).isSome :=
  C7_simple_chunk_text_terminates ('a' :: 'b' :: 'c' :: []) 2 1 (by decide)

/-! ## Claim C8 -/

/-- C8, counterexample to the claim as stated: a flush where the closed
chunk `"ab"` has length exactly `overlap_chars = 2`.  The source guard
is the strict `len(chunk_text) > overlap_chars`, so the boundary case
is *not* seeded: the next chunk starts with just the new paragraph. -/
theorem C8_counterexample :
    (⟨[], [['a', 'b']], 4⟩ : PackState).current ≠ [] ∧
    4 + (['c', 'd'].length + 2) > 4 ∧
    0 < 2 ∧
    2 ≤ (joinNN [['a', 'b']]).length ∧
    (packStep 4 2 ⟨[], [['a', 'b']], 4⟩ ['c', 'd']).current = [['c', 'd']] ∧
    [['c', 'd']] ≠ [lastN 2 (joinNN [['a', 'b']]), ['c', 'd']] := by
  decide

/-- C8 (amended): when a chunk is closed with `overlap_chars > 0`, the
next chunk is seeded with the trailing `overlap_chars` characters of
the closed chunk exactly when the closed chunk is *strictly longer*
than `overlap_chars`; when its length equals `overlap_chars` (or is
shorter, or `overlap_chars = 0`), the next chunk starts fresh with just
the incoming paragraph. -/
theorem C8_overlap_seeding (m o : Nat) (st : PackState) (p : List Char)
    (hcur : st.current ≠ []) (hover : st.currentLen + (p.length + 2) > m) :
    (0 < o → o < (joinNN st.current).length →
      packStep m o st p =
        { chunks := st.chunks ++ [joinNN st.current],
          current := [lastN o (joinNN st.current), p],
          currentLen := (lastN o (joinNN st.current)).length + (p.length + 2) }) ∧
    (o = 0 ∨ (joinNN st.current).length ≤ o →
      packStep m o st p =
        { chunks := st.chunks ++ [joinNN st.current],
          current := [p],
          currentLen := p.length + 2 }) := by
  constructor
  · intro ho hlen
    unfold packStep
    rw [if_pos ⟨hcur, hover⟩, if_pos ⟨ho, hlen⟩]
  · intro h
    unfold packStep
    rw [if_pos ⟨hcur, hover⟩, if_neg (by omega)]

/-- C8, witness: a flush whose closed chunk `"abc"` is strictly longer
than `overlap_chars = 2`, so the next chunk is seeded with `"bc"`. -/
theorem C8_witness :
    packStep 4 2 ⟨[], [['a', 'b', 'c']], 5⟩ ['d'] =
      { chunks := [['a', 'b', 'c']],
        current := [lastN 2 (joinNN [['a', 'b', 'c']]), ['d']],
        currentLen := (lastN 2 (joinNN [['a', 'b', 'c']])).length + (['d'].length + 2) } :=
  (C8_overlap_seeding 4 2 ⟨[], [['a', 'b', 'c']], 5⟩ ['d'] (by decide)
    (by decide)).1 (by decide) (by decide)

/-! ## Claim C2 -/

/-- C2: in the branch where the retrieval loop runs (`ntotal ≠ 0` and a
positive effective `k`), `VectorRetriever.search` degrades per record
and never aborts the query: the returned results are exactly the
per-pair successes of the loop body (up to the final sort), so their
count equals the count of pairs with a non-negative row id and a
present metadata record; a pair with a negative (FAISS sentinel) row id
is skipped; a pair whose row id has no metadata record is skipped; and
a result whose text reconstruction failed is still returned, with
`text = None`.  `_load_chunk_text` itself yields `None` rather than
raising when the source file is missing/unreadable or the chunk index
is out of range. -/
theorem C2_search_degrades_per_record (st : RetrieverState) (q : String)
    (tk : Option Int) (wt : Bool) (hn : st.ntotal ≠ 0)
    (hk : 0 < pyOrInt tk st.defaultTopK) :
    (∀ r, r ∈ VectorRetriever.search st q tk wt ↔
      ∃ p ∈ st.indexSearch q (pyOrInt tk st.defaultTopK),
        processPair st wt p = some r) ∧
    ((VectorRetriever.search st q tk wt).length =
      ((st.indexSearch q (pyOrInt tk st.defaultTopK)).filter
        (fun p => decide (0 ≤ p.2) && (st.rowidToMeta p.2).isSome)).length) ∧
    (∀ p : Int × Int, p.2 < 0 → processPair st wt p = Option.none) ∧
    (∀ p : Int × Int, st.rowidToMeta p.2 = Option.none →
      processPair st wt p = Option.none) ∧
    (∀ p ∈ st.indexSearch q (pyOrInt tk st.defaultTopK), ∀ m : MetaRecord,
      0 ≤ p.2 → st.rowidToMeta p.2 = some m →
      st.chunkText m.doc_id m.chunk_id = Option.none → wt = true →
      ({ doc_id := m.doc_id, chunk_id := m.chunk_id, score := p.1,
         text := Option.none } : RetrievedChunk) ∈
        VectorRetriever.search st q tk wt) ∧
    (∀ (readFile : String → Option (List Char)) (d : String) (cid : Int),
      (readFile d = Option.none → loadChunkTextModel readFile d cid = Option.none) ∧
      (∀ raw, readFile d = some raw →
        ¬ (0 ≤ cid ∧ cid < ((split_into_chunks raw 1000 200).length : Int)) →
        loadChunkTextModel readFile d cid = Option.none)) := by
  refine ⟨?_, ?_, ?_, ?_, ?_, ?_⟩
  · intro r
    rw [search_eq_mergeSort st q tk wt hn hk, List.mem_mergeSort]
    exact List.mem_filterMap
  · rw [search_eq_mergeSort st q tk wt hn hk, List.length_mergeSort]
    exact length_filterMap_eq_length_filter _ _ (processPair_isSome_eq st wt) _
  · intro p hneg
    unfold processPair
    rw [if_pos hneg]
  · intro p hm
    unfold processPair
    by_cases hneg : p.2 < 0
    · rw [if_pos hneg]
    · rw [if_neg hneg]
      simp [hm]
  · intro p hp m h0 hm hct hwt
    rw [search_eq_mergeSort st q tk wt hn hk, List.mem_mergeSort]
    refine List.mem_filterMap.mpr ⟨p, hp, ?_⟩
    unfold processPair
    rw [if_neg (by omega), hm]
    subst hwt
    simp [hct]
  · intro readFile d cid
    constructor
    · intro h
      unfold loadChunkTextModel
      rw [h]
    · intro raw hr hrange
      unfold loadChunkTextModel
      rw [hr]
      show (if 0 ≤ cid ∧ cid < ((split_into_chunks raw 1000 200).length : Int)
            then some ((split_into_chunks raw 1000 200).getD cid.toNat [])
            else Option.none) = Option.none
      rw [if_neg hrange]

/-- C2, witness: on the demo index (sentinel pads, one live pair, text
reconstruction always failing) the record is still returned with
`text = None`. -/
theorem C2_witness :
    ({ doc_id := "doc.txt", chunk_id := 0, score := 7,
       text := Option.none } : RetrievedChunk) ∈
      VectorRetriever.search demoState "q" (some 5) true :=
  (C2_search_degrades_per_record demoState "q" (some 5) true (by decide)
      (by decide)).2.2.2.2.1
    ((7 : Int), (0 : Int)) (by decide) { doc_id := "doc.txt", chunk_id := 0 }
    (by decide) (by decide) (by decide) rfl

/-! ## Claim C5 -/

/-- C5: after every successful ingestion run, the number of metadata
lines equals `index.ntotal`, line `i` (0-based) carries `row_id = i`,
and it describes exactly the chunk whose vector sits at row `i`: the
index's vector list is the chunk list mapped through the embedder, and
line `i` repeats chunk `i`'s `doc_id` and `chunk_id`. -/
theorem C5_row_alignment (embed : List Char → List Int)
    (corpus : List (String × List Char)) (out : IngestOutputs)
    (h : run_ingestion embed corpus = some out) :
    out.metadata.length = out.index.ntotal ∧
    out.index.vectors =
      (build_chunks_for_corpus corpus).map (fun c => embed c.text) ∧
    out.metadata.length = (build_chunks_for_corpus corpus).length ∧
    (∀ i (hi : i < out.metadata.length),
      (out.metadata.get ⟨i, hi⟩).row_id = i ∧
      ∃ hc : i < (build_chunks_for_corpus corpus).length,
        (out.metadata.get ⟨i, hi⟩).doc_id =
          ((build_chunks_for_corpus corpus).get ⟨i, hc⟩).doc_id ∧
        (out.metadata.get ⟨i, hi⟩).chunk_id =
          ((build_chunks_for_corpus corpus).get ⟨i, hc⟩).chunk_id) := by
  unfold run_ingestion embed_chunks at h
  by_cases hc : build_chunks_for_corpus corpus = []
  · rw [if_pos hc] at h
    cases h
  · rw [if_neg hc, if_neg hc] at h
    rw [← Option.some.inj h]
    refine ⟨?_, rfl, ?_, ?_⟩
    · simp [save_index_and_metadata, build_faiss_index, FaissIndex.ntotal,
        List.enum_length]
    · simp [save_index_and_metadata, List.enum_length]
    · intro i hi
      have hi' : i < (build_chunks_for_corpus corpus).length := by
        simpa [save_index_and_metadata, List.enum_length] using hi
      refine ⟨?_, hi', ?_, ?_⟩ <;>
        simp [save_index_and_metadata, List.get_eq_getElem,
          List.getElem_map, List.getElem_enum]

/-- A one-document demo corpus for the ingestion witnesses. -/
def demoCorpus : List (String × List Char) := [("a.txt", "hello".data)]

/-- A deterministic stand-in embedder: one-dimensional length vector. -/
def demoEmbed : List Char → List Int := fun t => [(t.length : Int)]

/-- The outputs `run_ingestion` produces on the demo corpus. -/
def demoIngest : IngestOutputs :=
  { index := { vectors := [[5]] }
    metadata := [{ row_id := 0, doc_id := "a.txt", chunk_id := 0 }] }

/-- C5, witness: the alignment statement applied to a concrete run. -/
theorem C5_witness :
    demoIngest.metadata.length = demoIngest.index.ntotal ∧
    demoIngest.index.vectors =
      (build_chunks_for_corpus demoCorpus).map (fun c => demoEmbed c.text) :=
  ⟨(C5_row_alignment demoEmbed demoCorpus demoIngest (by decide)).1,
   (C5_row_alignment demoEmbed demoCorpus demoIngest (by decide)).2.1⟩

/-! ## Claim C6 -/

/-- C6: a corpus yielding zero chunks makes both ingestion pipelines
stop before producing any output: `run_ingestion` returns early
(no files are written), and `build_index_from_dir` raises its
`RuntimeError` before creating either the index file or the metadata
file. -/
theorem C6_no_output_when_no_chunks :
    (∀ (embed : List Char → List Int) (corpus : List (String × List Char)),
      build_chunks_for_corpus corpus = [] →
      run_ingestion embed corpus = Option.none) ∧
    (∀ (embed : List Char → List Int) (corpus : List RawDoc) (m o : Nat),
      chunkDocs m o corpus = some [] →
      build_index_from_dir embed corpus m o =
        some (.error "No text chunks found")) := by
  constructor
  · intro embed corpus h
    unfold run_ingestion
    rw [h]
    rfl
  · intro embed corpus m o h
    unfold build_index_from_dir
    rw [h]
    rfl

/-- C6, witness: a whitespace-only document produces zero chunks and
both pipelines stop with no output. -/
theorem C6_witness :
    run_ingestion demoEmbed [("a.txt", [' '])] = Option.none ∧
    build_index_from_dir demoEmbed
        [{ stem := "a", path := "a.txt", content := [' '] }] 800 100 =
      some (.error "No text chunks found") :=
  ⟨C6_no_output_when_no_chunks.1 demoEmbed [("a.txt", [' '])] (by decide),
   C6_no_output_when_no_chunks.2 demoEmbed
     [{ stem := "a", path := "a.txt", content := [' '] }] 800 100 (by decide)⟩

/-! ## Claim C9 -/

/-- C9: `_call_llm_via_httpx` always returns a string and never
propagates an error: in stub mode, when the API key is missing, when
the response has no choices, when the first choice's content is missing
/ non-string / blank, and when the HTTP call raises any exception, it
returns the corresponding canned stub string; in every case the result
is either a string opening with the stub marker or the trimmed
non-empty LLM content. -/
theorem C9_llm_never_propagates (cfg : LLMConfig) (env : String → Option String)
    (outcome : LlmHttpOutcome) (query : String) :
    (pyLower cfg.provider = "stub" →
      call_llm_via_httpx cfg env outcome query = stubModeAnswer query) ∧
    (pyLower cfg.provider ≠ "stub" → (env cfg.api_key_env).getD "" = "" →
      call_llm_via_httpx cfg env outcome query = stubMissingKeyAnswer cfg.api_key_env) ∧
    (∀ name, pyLower cfg.provider ≠ "stub" → (env cfg.api_key_env).getD "" ≠ "" →
      outcome = .exc name →
      call_llm_via_httpx cfg env outcome query = stubErrorAnswer name) ∧
    (pyLower cfg.provider ≠ "stub" → (env cfg.api_key_env).getD "" ≠ "" →
      outcome = .ok [] →
      call_llm_via_httpx cfg env outcome query = stubNoChoicesAnswer) ∧
    (∀ rest, pyLower cfg.provider ≠ "stub" → (env cfg.api_key_env).getD "" ≠ "" →
      (outcome = .ok (Option.none :: rest) →
        call_llm_via_httpx cfg env outcome query = stubEmptyAnswer) ∧
      (∀ s, s.trim = "" → outcome = .ok (some s :: rest) →
        call_llm_via_httpx cfg env outcome query = stubEmptyAnswer)) ∧
    ((∃ t, call_llm_via_httpx cfg env outcome query = stubMarker ++ t) ∨
      ∃ s rest, outcome = .ok (some s :: rest) ∧
        call_llm_via_httpx cfg env outcome query = s.trim ∧ s.trim ≠ "") := by
  by_cases hp : pyLower cfg.provider = "stub"
  · refine ⟨fun _ => ?_, fun hne => absurd hp hne, fun _ hne => absurd hp hne,
      fun hne => absurd hp hne, fun _ hne => absurd hp hne,
      Or.inl ⟨stubModeBody query, ?_⟩⟩
    · unfold call_llm_via_httpx
      rw [if_pos hp]
    · unfold call_llm_via_httpx
      rw [if_pos hp]
      rfl
  · by_cases hkey : (env cfg.api_key_env).getD "" = ""
    · refine ⟨fun h => absurd h hp, fun _ _ => ?_, fun _ _ hk => absurd hkey hk,
        fun _ hk => absurd hkey hk, fun _ _ hk => absurd hkey hk,
        Or.inl ⟨stubMissingKeyBody cfg.api_key_env, ?_⟩⟩
      · unfold call_llm_via_httpx
        rw [if_neg hp, if_pos hkey]
      · unfold call_llm_via_httpx
        rw [if_neg hp, if_pos hkey]
        rfl
    · refine ⟨fun h => absurd h hp, fun _ hk => absurd hk hkey, ?_, ?_, ?_, ?_⟩
      · intro name _ _ hout
        unfold call_llm_via_httpx
        rw [if_neg hp, if_neg hkey, hout]
      · intro _ _ hout
        unfold call_llm_via_httpx
        rw [if_neg hp, if_neg hkey, hout]
      · intro rest _ _
        constructor
        · intro hout
          unfold call_llm_via_httpx
          rw [if_neg hp, if_neg hkey, hout]
        · intro s hs hout
          unfold call_llm_via_httpx
          rw [if_neg hp, if_neg hkey, hout]
          show (if s.trim = "" then stubEmptyAnswer else s.trim) = stubEmptyAnswer
          rw [if_pos hs]
      · rcases outcome with name | contents
        · refine Or.inl ⟨stubErrorBody name, ?_⟩
          unfold call_llm_via_httpx
          rw [if_neg hp, if_neg hkey]
          rfl
        · rcases contents with _ | ⟨c, rest⟩
          · refine Or.inl ⟨stubNoChoicesBody, ?_⟩
            unfold call_llm_via_httpx
            rw [if_neg hp, if_neg hkey]
            rfl
          · rcases c with _ | s
            · refine Or.inl ⟨stubEmptyBody, ?_⟩
              unfold call_llm_via_httpx
              rw [if_neg hp, if_neg hkey]
              rfl
            · by_cases hs : s.trim = ""
              · refine Or.inl ⟨stubEmptyBody, ?_⟩
                unfold call_llm_via_httpx
                rw [if_neg hp, if_neg hkey]
                show (if s.trim = "" then stubEmptyAnswer else s.trim) =
                  stubMarker ++ stubEmptyBody
                rw [if_pos hs]
                rfl
              · refine Or.inr ⟨s, rest, rfl, ?_, hs⟩
                unfold call_llm_via_httpx
                rw [if_neg hp, if_neg hkey]
                show (if s.trim = "" then stubEmptyAnswer else s.trim) = s.trim
                rw [if_neg hs]

/-- C9, witness: stub mode and an exception-raising real call. -/
theorem C9_witness :
    call_llm_via_httpx
        { provider := "stub", model_name := "m", api_base := "", api_key_env := "KEY" }
        (fun _ => Option.none) (.exc "ConnectError") "hi" = stubModeAnswer "hi" ∧
    call_llm_via_httpx
        { provider := "openai", model_name := "m", api_base := "", api_key_env := "KEY" }
        (fun _ => some "sk-test") (.exc "ConnectError") "hi" =
      stubErrorAnswer "ConnectError" :=
  ⟨(C9_llm_never_propagates
      { provider := "stub", model_name := "m", api_base := "", api_key_env := "KEY" }
      (fun _ => Option.none) (.exc "ConnectError") "hi").1 (by decide),
   (C9_llm_never_propagates
      { provider := "openai", model_name := "m", api_base := "", api_key_env := "KEY" }
      (fun _ => some "sk-test") (.exc "ConnectError") "hi").2.2.1 "ConnectError"
     (by decide) (by decide) rfl⟩

/-! ## Claim C10 -/

/-- C10: when a retriever result object carries a `text` attribute whose
value is Python `None`, `_result_to_search_result` sets the response's
`text` field to `str(None)`, the literal four-character string
`"None"` — not the empty string and not a JSON null. -/
theorem C10_none_text_stringified (attrs : String → Option PyVal) (ci sc : Int)
    (hc : attrs "chunk_id" = some (.int ci)) (hs : attrs "score" = some (.int sc))
    (ht : attrs "text" = some .none) :
    ∃ r, result_to_search_result attrs = some r ∧
      r.text = "None" ∧ r.text ≠ "" ∧ r.text.length = 4 := by
  refine ⟨⟨(getAttrOrKey attrs "doc_id" (.str "unknown")).pyStr, ci, sc, "None"⟩,
    ?_, rfl, ?_, rfl⟩
  · unfold result_to_search_result getAttrOrKey
    rw [hc, hs, ht]
    rfl
  · show ("None" : String) ≠ ""
    decide

/-- A concrete result object with a `None` text attribute, as produced
by a `RetrievedChunk` whose reconstruction failed. -/
def demoAttrs : String → Option PyVal := fun n =>
  if n = "doc_id" then some (.str "doc.txt")
  else if n = "chunk_id" then some (.int 2)
  else if n = "score" then some (.int 9)
  else if n = "text" then some .none
  else Option.none

/-- C10, witness: the statement applied to the concrete object. -/
theorem C10_witness :
    ∃ r, result_to_search_result demoAttrs = some r ∧
      r.text = "None" ∧ r.text ≠ "" ∧ r.text.length = 4 :=
  C10_none_text_stringified demoAttrs 2 9 (by decide) (by decide) (by decide)

/-! ## Claim C4 -/

/-- C4, counterexample to the claim as stated: both chunkers strip
whitespace, so not every character of the original text appears in a
chunk.  For the text `" a"` the paragraph-packing chunker produces the
single chunk `"a"`; the leading space appears in no chunk. -/
theorem C4_counterexample :
    (' ' ∈ ([' ', 'a'] : List Char)) ∧
    split_into_chunks [' ', 'a'] 1000 200 = [['a']] ∧
    (∀ ch ∈ split_into_chunks [' ', 'a'] 1000 200, ' ' ∉ ch) := by
  decide

/-- C4 (amended): for every document text, every *non-whitespace*
character of the text appears in at least one chunk of each chunker; no
produced chunk is empty after trimming; and empty input yields zero
chunks.  For `simple_chunk_text` the statement is under the valid
parameter regime `overlap < max_chars` of C7 (whitespace-only
characters can be dropped by paragraph splitting / stripping, see the
counterexample). -/
theorem C4_chunk_coverage (text : List Char) (maxChars overlapChars : Nat) :
    (∀ c ∈ text, isPySpace c = false →
      ∃ ch ∈ split_into_chunks text maxChars overlapChars, c ∈ ch) ∧
    (∀ ch ∈ split_into_chunks text maxChars overlapChars, pyStrip ch ≠ []) ∧
    split_into_chunks [] maxChars overlapChars = [] ∧
    (overlapChars < maxChars →
      ∃ res, simple_chunk_text text maxChars overlapChars = some res ∧
        (∀ c ∈ text, isPySpace c = false → ∃ ch ∈ res, c ∈ ch) ∧
        (∀ ch ∈ res, pyStrip ch ≠ []) ∧
        (text = [] → res = [])) := by
  refine ⟨?_, split_into_chunks_nonempty maxChars overlapChars,
    split_into_chunks_nil maxChars overlapChars, ?_⟩
  · intro c hct hcf
    exact split_into_chunks_covers maxChars overlapChars hcf hct
  · intro hov
    have hsome : (simple_chunk_text text maxChars overlapChars).isSome := by
      unfold simple_chunk_text
      exact simpleChunkLoop_isSome (replaceCRLF text) maxChars overlapChars hov
        _ 0 [] (by omega)
    obtain ⟨res, hres⟩ := Option.isSome_iff_exists.mp hsome
    obtain ⟨hcov, hne, hnil⟩ := simple_chunk_text_sound hres
    exact ⟨res, hres, hcov, hne, hnil⟩

/-- C4, witness: coverage of the only character of the text `"a"` for
both chunkers at concrete parameters. -/
theorem C4_witness :
    (∃ ch ∈ split_into_chunks ['a'] 5 2, 'a' ∈ ch) ∧
    (∃ res, simple_chunk_text ['a'] 5 2 = some res ∧
      (∀ c ∈ ['a'], isPySpace c = false → ∃ ch ∈ res, c ∈ ch) ∧
      (∀ ch ∈ res, pyStrip ch ≠ []) ∧
      ((['a'] : List Char) = [] → res = [])) :=
  ⟨(C4_chunk_coverage ['a'] 5 2).1 'a' (by decide) (by decide),
   (C4_chunk_coverage ['a'] 5 2).2.2.2 (by decide)⟩
